import Mathlib

/-!
# Verification of the `interface-to-zod` type-tree compiler

A shallow embedding of `src/index.ts` (class `ZodSchemaInterfaceGenerator`),
the recursive walker `generateZodSchema` and the entry point
`generateZodSchemaFunction`.

Modelling decisions, all taken from the source:
* A ts-morph `Type` is modelled by the inductive `Ty`.  The walker only ever
  queries a type through `isArray`, `isLiteral`/`isStringLiteral`,
  `isEnumLiteral`, `getText`, `isUnion`, `getApparentType`,
  `getAliasSymbol`/`getAliasTypeArguments` and `getProperties`, so the
  constructors mirror exactly those observations:
  `arr` (isArray), `lit` (isLiteral, carrying the already-JSON-stringified
  literal value, which for string and number literals coincides with the
  type's text), `enumLit` (isEnumLiteral, carrying the symbol name),
  `union` (isUnion) and `atom` for every other type — primitives,
  interfaces, object literals and `Record` aliases — identified by its text.
* The type graph behind `atom`s (cyclic in general) is an association list
  `env : List (String × AtomDef)` from a type's text to its structure:
  a `Record` alias with its two optional alias type arguments, or an object
  type with its apparent properties.  An `atom` whose text has no entry
  behaves like a type whose apparent type has no properties, exactly as the
  source degrades such aliases.  We identify `type.getText()` with
  `type.getApparentType().getText()` for `atom`s (the cycle key).
* The JS `Set` that `generateZodSchema` mutates in place is threaded
  explicitly: every function returns the updated set (a `List String`;
  elements are only added when absent, so list operations agree with set
  operations).  `visited.add` is cons, `visited.delete` is `List.erase`.
* JS recursion depth is made explicit with a `fuel : Nat` argument; `none`
  means the fuel ran out, which never happens for sufficient fuel
  (`generateZodSchema_total` below).
* `RegExp` patterns of `customTypeGenerators` are modelled by their `test`
  function; string patterns by exact equality, as in the source.
* `String.prototype.toLowerCase`/`includes`, `JSON.stringify` on property
  names (quote/backslash escaping; control characters do not occur in
  property names), `path.basename` and the `/^__@.+@\d+$/` synthetic-member
  test are implemented on character lists below.
-/

namespace InterfaceToZod

/-- One observed ts-morph type node (see the module docstring). -/
inductive Ty where
  | arr (elem : Ty)
  | lit (jsonText : String)
  | enumLit (symbolName : String)
  | union (members : List Ty)
  | atom (text : String)

/-- One property of an object type: `prop.getName()`, `prop.isOptional?.()`,
`prop.getTypeAtLocation(sourceFile)`. -/
structure PropDesc where
  name : String
  optional : Bool
  ty : Ty

/-- The structure behind an `atom`'s text: a `Record` alias (with its two
optional alias type arguments, `type.getAliasTypeArguments()`), or an object
type with the property list of its apparent type. -/
inductive AtomDef where
  | recordAlias (keyArg : Option Ty) (valueArg : Option Ty)
  | objType (props : List PropDesc)

/-- A `customTypeGenerators` pattern: a string (matched by `text === pattern`)
or a `RegExp` (modelled by its `test` function). -/
inductive Matcher where
  | strPat (s : String)
  | regexPat (test : String → Bool)

/-- `(typeof pattern === 'string' && text === pattern) ||
(pattern instanceof RegExp && pattern.test(text))`. -/
def Matcher.matches : Matcher → String → Bool
  | .strPat s, text => text == s
  | .regexPat f, text => f text

/-- `ZodSchemaGeneratorOptions`: both fields are optional in the source. -/
structure GenOpts where
  excludedSmartDetections : Option (List String) := none
  customTypeGenerators : Option (List (Matcher × String)) := none

mutual
/-- `type.getText()`, for the shapes of types the walker distinguishes. -/
def Ty.getText : Ty → String
  | .arr e => Ty.getText e ++ "[]"
  | .lit t => t
  | .enumLit n => n
  | .union ms => String.intercalate " | " (Ty.getTextList ms)
  | .atom s => s
def Ty.getTextList : List Ty → List String
  | [] => []
  | t :: ts => Ty.getText t :: Ty.getTextList ts
end

/-- `String.prototype.toLowerCase` (ASCII, as used on property names). -/
def strLower (s : String) : String := String.mk (s.data.map Char.toLower)

/-- Is `needle` a prefix of `hay`? -/
def listPre : List Char → List Char → Bool
  | [], _ => true
  | _ :: _, [] => false
  | a :: as, b :: bs => a == b && listPre as bs

/-- Does `hay` contain `needle` as a contiguous run? -/
def listSub (needle : List Char) : List Char → Bool
  | [] => listPre needle []
  | c :: t => listPre needle (c :: t) || listSub needle t

/-- `hay.includes(needle)`. -/
def strIncludes (hay needle : String) : Bool := listSub needle.data hay.data

/-- `JSON.stringify` escaping for one character of a property name. -/
def jsonEscChar (c : Char) : String :=
  if c == '"' then "\\\"" else if c == '\\' then "\\\\" else String.mk [c]

/-- `JSON.stringify` of a property name. -/
def jsonStr (s : String) : String :=
  "\"" ++ String.join (s.data.map jsonEscChar) ++ "\""

/-- `"  ".repeat(depth)`. -/
def indentStr (depth : Nat) : String := String.join (List.replicate depth "  ")

/-- Is there a position `≥ 0` holding `'@'` followed by a nonempty all-digit
run to the end? -/
def atDigitsSplit : List Char → Bool
  | [] => false
  | c :: rest => (c == '@' && !rest.isEmpty && rest.all Char.isDigit) || atDigitsSplit rest

/-- The synthetic-member test `/^__@.+@\d+$/.test(name)`. -/
def isSyntheticName (s : String) : Bool :=
  match s.data with
  | '_' :: '_' :: '@' :: _ :: rest => atDigitsSplit rest
  | _ => false

/-- The `customTypeGenerators` loop: first matching rule wins. -/
def findOverride : List (Matcher × String) → String → Option String
  | [], _ => none
  | (m, r) :: rest, text => if m.matches text then some r else findOverride rest text

/-- The `text === "string"` branch: smart detection against the property-name
hint, unless the name is listed in `excludedSmartDetections`. -/
def smartString (opts : GenOpts) (propName : Option String) : String :=
  if (propName.getD "") ∈ opts.excludedSmartDetections.getD [] then "z.string()"
  else
    match propName with
    | some p =>
      if p == "" then "z.string()"  -- `if (propName)`: the empty string is falsy
      else
        let lower := strLower p
        if strIncludes lower "email" then "z.email()"
        else if strIncludes lower "url" then "z.url()"
        else "z.string()"
    | none => "z.string()"

/-- The text-keyed block of `generateZodSchema` between the enum-literal
check and the union check: `customTypeGenerators` overrides first, then the
primitive-keyword chain.  Returns `none` when control falls through to the
union / apparent-type logic. -/
def textRules (opts : GenOpts) (text : String) (propName : Option String) : Option String :=
  match findOverride (opts.customTypeGenerators.getD []) text with
  | some r => some r
  | none =>
    if text == "string" then some (smartString opts propName)
    else if text == "number" then some "z.number()"
    else if text == "boolean" then some "z.boolean()"
    else if text == "Date" then some "z.date()"
    else if text == "null" then some "z.null()"
    else if text == "undefined" then some "z.undefined()"
    else if text == "void" then some "z.void()"
    else if text == "any" then some "z.any()"
    else if text == "unknown" then some "z.unknown()"
    else if text == "never" then some "z.never()"
    else none

mutual
/-- `generateZodSchema(type, sourceFile, options, depth, visited, propName)`.
Returns the emitted schema text together with the visited set as it stands
when the call returns (the source mutates one shared `Set`; sequential
mutation is modelled by threading).  `none` only on fuel exhaustion. -/
def generateZodSchema (env : List (String × AtomDef)) (opts : GenOpts) :
    Nat → Ty → Nat → List String → Option String → Option (String × List String)
  | 0, _, _, _, _ => none
  | f + 1, ty, depth, visited, propName =>
    match ty with
    | .arr e =>
      match generateZodSchema env opts f e depth visited none with
      | none => none
      | some (s, v) => some ("z.array(" ++ s ++ ")", v)
    | .lit t => some ("z.literal(" ++ t ++ ")", visited)
    | .enumLit n => some ("z.enum(" ++ n ++ ")", visited)
    | .union ms =>
      match textRules opts (Ty.getText (.union ms)) propName with
      | some r => some (r, visited)
      | none =>
        match generateMembers env opts f ms depth visited with
        | none => none
        | some (ss, v) => some ("z.union([" ++ String.intercalate ", " ss ++ "])", v)
    | .atom sig =>
      match textRules opts sig propName with
      | some r => some (r, visited)
      | none =>
        -- key = apparent.getText(); cycle guard
        if sig ∈ visited then some ("\x7b\x7d", visited)
        else
          match List.lookup sig env with
          | some (.recordAlias (some kt) (some vt)) =>
            match generateZodSchema env opts f kt (depth + 1) (sig :: visited) none with
            | none => none
            | some (ks, v1) =>
              match generateZodSchema env opts f vt (depth + 1) v1 none with
              | none => none
              | some (vs, v2) => some ("z.record(" ++ ks ++ ", " ++ vs ++ ")", v2)
          | some (.recordAlias _ _) => some ("\x7b\x7d", (sig :: visited).erase sig)
          | some (.objType props) =>
            -- an unresolvable atom (no env entry) behaves like a zero-property
            -- object; the two object arms below mirror the one fall-through of
            -- the source
            if props.isEmpty then some ("\x7b\x7d", (sig :: visited).erase sig)
            else
              match generateProps env opts f (props.filter fun p => !isSyntheticName p.name)
                  depth (sig :: visited) with
              | none => none
              | some (lines, v2) =>
                some ("z.object(\x7b\n" ++
                      String.intercalate "\n" (lines.filter fun l => !(l == "")) ++
                      "\n" ++ indentStr depth ++ "\x7d)",
                      v2.erase sig)
          | none => some ("\x7b\x7d", (sig :: visited).erase sig)

/-- The `unionTypes.map(t => this.generateZodSchema(..., visited))` loop:
members in order, the shared visited set threaded left to right. -/
def generateMembers (env : List (String × AtomDef)) (opts : GenOpts) :
    Nat → List Ty → Nat → List String → Option (List String × List String)
  | 0, _, _, _ => none
  | _ + 1, [], _, visited => some ([], visited)
  | f + 1, t :: ts, depth, visited =>
    match generateZodSchema env opts f t depth visited none with
    | none => none
    | some (s, v) =>
      match generateMembers env opts f ts depth v with
      | none => none
      | some (ss, v') => some (s :: ss, v')

/-- The per-property `.map` of the object branch: compile the property type
with the property name as hint, wrap in `z.optional` when the property is
optional, and emit the object line. -/
def generateProps (env : List (String × AtomDef)) (opts : GenOpts) :
    Nat → List PropDesc → Nat → List String → Option (List String × List String)
  | 0, _, _, _ => none
  | _ + 1, [], _, visited => some ([], visited)
  | f + 1, p :: ps, depth, visited =>
    match generateZodSchema env opts f p.ty (depth + 1) visited (some p.name) with
    | none => none
    | some (cs, v) =>
      let valueSchema := if p.optional then "z.optional(" ++ cs ++ ")" else cs
      let line := indentStr depth ++ "  " ++ jsonStr p.name ++ ": " ++ valueSchema ++ ","
      match generateProps env opts f ps depth v with
      | none => none
      | some (lines, v') => some (line :: lines, v')
end

/-- `path.basename` (POSIX paths without a trailing separator, as produced by
`__filename`). -/
def basename (p : String) : String :=
  String.mk ((p.data.reverse.takeWhile fun c => !(c == '/')).reverse)

/-- A source file as `generateZodSchemaFunction` observes it: its path, its
interface declarations (`sourceFile.getInterface`) and the type graph behind
the atom texts. -/
structure SourceFileModel where
  filePath : String
  interfaces : List (String × Ty)
  env : List (String × AtomDef)

/-- `generateZodSchemaFunction(interfaceName, filePath, options)`: resolve
the interface, fail with the "not found" error otherwise, then emit the
schema factory source handed to `new Function('z', ...)`. -/
def generateZodSchemaFunction (sf : SourceFileModel) (interfaceName : String)
    (opts : GenOpts) (fuel : Nat) : Except String String :=
  match List.lookup interfaceName sf.interfaces with
  | none =>
    .error ("Interface '" ++ interfaceName ++ "' not found in " ++ basename sf.filePath)
  | some ty =>
    match generateZodSchema sf.env opts fuel ty 0 [] none with
    | none => .error "fuel exhausted"  -- modelling artifact, unreachable at sufficient fuel
    | some (s, _) =>
      .ok ("\n      function create" ++ interfaceName ++ "ZodSchema() \x7b\n        return " ++
           s ++ ";\n      \x7d\n\n      return create" ++ interfaceName ++ "ZodSchema();\n    ")

-- Sanity examples (concrete evaluations of the embedding).

example : generateZodSchema [] {} 3 (.atom "string") 0 [] none = some ("z.string()", []) := rfl

example : generateZodSchema [] {} 3 (.atom "string") 0 [] (some "userEmail") =
    some ("z.email()", []) := rfl

example : generateZodSchema [] {} 3 (.atom "string") 0 [] (some "link") =
    some ("z.string()", []) := rfl

example : generateZodSchema [] {} 5 (.arr (.atom "number")) 0 [] none =
    some ("z.array(z.number())", []) := rfl

example : generateZodSchema [] {} 5 (.union [.lit "\"active\"", .lit "\"inactive\""]) 0 [] none =
    some ("z.union([z.literal(\"active\"), z.literal(\"inactive\")])", []) := rfl

example :
    generateZodSchema [("User", .objType [⟨"id", false, .atom "string"⟩, ⟨"friend", false, .atom "User"⟩])]
      {} 20 (.atom "User") 0 [] none =
    some ("z.object(\x7b\n  \"id\": z.string(),\n  \"friend\": \x7b\x7d,\n\x7d)", []) := rfl

example :
    generateZodSchema [("R", .recordAlias (some (.atom "string")) (some (.atom "number")))]
      {} 5 (.atom "R") 0 [] none =
    some ("z.record(z.string(), z.number())", ["R"]) := rfl

/-! ## Structural measures

Fuel accounting: `generateZodSchema` can only recurse deeper than the
structural size of its argument by unfolding an `atom` through `env`, and
each such unfolding adds a fresh signature to the visited set, which bounds
the number of unfoldings by the number of env entries not yet visited. -/

mutual
/-- Structural size of a type node. -/
def Ty.size : Ty → Nat
  | .arr e => Ty.size e + 1
  | .lit _ => 1
  | .enumLit _ => 1
  | .union ms => Ty.sizeList ms + 1
  | .atom _ => 1
/-- Structural size of a member list. -/
def Ty.sizeList : List Ty → Nat
  | [] => 0
  | t :: ts => Ty.size t + Ty.sizeList ts + 1
end

/-- Structural size of a property list. -/
def propsSize : List PropDesc → Nat
  | [] => 0
  | p :: ps => Ty.size p.ty + propsSize ps + 1

/-- Total size of the types reachable in one unfolding of an atom. -/
def AtomDef.tySize : AtomDef → Nat
  | .recordAlias (some k) (some v) => Ty.size k + Ty.size v
  | .recordAlias _ _ => 0
  | .objType ps => propsSize ps

/-- Total size of the environment (bounds any one unfolding). -/
def envSize : List (String × AtomDef) → Nat
  | [] => 0
  | e :: es => 1 + AtomDef.tySize e.2 + envSize es

/-- Number of environment entries whose signature is not yet visited. -/
def unvis (env : List (String × AtomDef)) (v : List String) : Nat :=
  List.countP (fun e => decide (e.1 ∉ v)) env

theorem Ty.size_pos : ∀ t : Ty, 1 ≤ t.size := by
  intro t
  cases t <;> simp [Ty.size]

theorem Ty.sizeList_cons (t : Ty) (ts : List Ty) :
    Ty.sizeList (t :: ts) = Ty.size t + Ty.sizeList ts + 1 := by
  rw [Ty.sizeList]

theorem propsSize_filter_le (p : PropDesc → Bool) :
    ∀ ps : List PropDesc, propsSize (ps.filter p) ≤ propsSize ps := by
  intro ps
  induction ps with
  | nil => simp [List.filter]
  | cons q qs ih =>
    rw [List.filter_cons]
    by_cases hq : p q = true
    · rw [if_pos hq]
      simp only [propsSize]
      omega
    · rw [if_neg hq]
      simp only [propsSize]
      omega

theorem tySize_le_envSize (env : List (String × AtomDef)) (sig : String) (d : AtomDef)
    (h : List.lookup sig env = some d) : 1 + d.tySize ≤ envSize env := by
  induction env with
  | nil => simp [List.lookup] at h
  | cons e es ih =>
    rw [List.lookup] at h
    by_cases hk : (sig == e.1) = true
    · simp only [hk, if_true] at h
      cases h
      simp only [envSize]
      omega
    · simp only [hk, if_false] at h
      have := ih h
      simp [envSize]
      omega

theorem unvis_mono (env : List (String × AtomDef)) {v v' : List String}
    (h : ∀ x ∈ v, x ∈ v') : unvis env v' ≤ unvis env v := by
  refine List.countP_mono_left ?_
  intro e _ he
  simp only [decide_eq_true_eq] at he ⊢
  intro hmem
  exact he (h _ hmem)

theorem unvis_lookup_lt (env : List (String × AtomDef)) (sig : String) (d : AtomDef)
    (hnv : sig ∉ v) (h : List.lookup sig env = some d) :
    unvis env (sig :: v) < unvis env v := by
  induction env with
  | nil => simp [List.lookup] at h
  | cons e es ih =>
    rw [List.lookup] at h
    unfold unvis
    rw [List.countP_cons, List.countP_cons]
    by_cases hk : (sig == e.1) = true
    · have hes : unvis es (sig :: v) ≤ unvis es v :=
        unvis_mono es (fun x hx => List.mem_cons_of_mem _ hx)
      have he1 : e.1 = sig := (beq_iff_eq.mp hk).symm
      have h1 : decide (e.1 ∉ sig :: v) = false := by
        simp [he1]
      have h2 : decide (e.1 ∉ v) = true := by
        simp [he1, hnv]
      rw [h1, h2]
      simp only [Bool.false_eq_true, if_false, if_true]
      unfold unvis at hes
      omega
    · simp only [hk, if_false] at h
      have hne : e.1 ≠ sig := fun hcontra => hk (beq_iff_eq.mpr hcontra.symm)
      have hsame : decide (e.1 ∉ sig :: v) = decide (e.1 ∉ v) := by
        simp [List.mem_cons, hne]
      rw [hsame]
      have := ih h
      unfold unvis at this
      omega

/-! ## The visited set only grows across one call

The source only ever deletes a signature it has itself added (the guard adds
`key` only when absent and each `visited.delete(key)` matches that add), so
every element present on entry is still present on return. -/

theorem gen_mono (env : List (String × AtomDef)) (opts : GenOpts) :
    ∀ fuel : Nat,
      (∀ ty d v hn s v', generateZodSchema env opts fuel ty d v hn = some (s, v') →
        ∀ x ∈ v, x ∈ v')
      ∧ (∀ ms d v ss v', generateMembers env opts fuel ms d v = some (ss, v') →
        ∀ x ∈ v, x ∈ v')
      ∧ (∀ ps d v ls v', generateProps env opts fuel ps d v = some (ls, v') →
        ∀ x ∈ v, x ∈ v') := by
  intro fuel
  induction fuel with
  | zero =>
    refine ⟨?_, ?_, ?_⟩
    · intro ty d v hn s v' heq
      exact absurd heq (by simp [generateZodSchema])
    · intro ms d v ss v' heq
      exact absurd heq (by simp [generateMembers])
    · intro ps d v ls v' heq
      exact absurd heq (by simp [generateProps])
  | succ f ih =>
    obtain ⟨ih1, ih2, ih3⟩ := ih
    refine ⟨?_, ?_, ?_⟩
    · intro ty d v hn s v' heq x hx
      cases ty with
      | arr e =>
        simp only [generateZodSchema] at heq
        cases hrec : generateZodSchema env opts f e d v none with
        | none => rw [hrec] at heq; simp at heq
        | some r =>
          obtain ⟨s0, v0⟩ := r
          rw [hrec] at heq
          simp only [Option.some.injEq, Prod.mk.injEq] at heq
          obtain ⟨-, rfl⟩ := heq
          exact ih1 e d v none s0 v0 hrec x hx
      | lit t =>
        simp only [generateZodSchema, Option.some.injEq, Prod.mk.injEq] at heq
        obtain ⟨-, rfl⟩ := heq
        exact hx
      | enumLit n =>
        simp only [generateZodSchema, Option.some.injEq, Prod.mk.injEq] at heq
        obtain ⟨-, rfl⟩ := heq
        exact hx
      | union ms =>
        simp only [generateZodSchema] at heq
        cases htr : textRules opts (Ty.getText (.union ms)) hn with
        | some r =>
          rw [htr] at heq
          simp only [Option.some.injEq, Prod.mk.injEq] at heq
          obtain ⟨-, rfl⟩ := heq
          exact hx
        | none =>
          rw [htr] at heq
          cases hrec : generateMembers env opts f ms d v with
          | none => rw [hrec] at heq; simp at heq
          | some r =>
            obtain ⟨ss0, v0⟩ := r
            rw [hrec] at heq
            simp only [Option.some.injEq, Prod.mk.injEq] at heq
            obtain ⟨-, rfl⟩ := heq
            exact ih2 ms d v ss0 v0 hrec x hx
      | atom sig =>
        cases htr : textRules opts sig hn with
        | some r =>
          simp only [generateZodSchema, htr, Option.some.injEq, Prod.mk.injEq] at heq
          obtain ⟨-, rfl⟩ := heq
          exact hx
        | none =>
          by_cases hv : sig ∈ v
          · simp only [generateZodSchema, htr, if_pos hv, Option.some.injEq,
              Prod.mk.injEq] at heq
            obtain ⟨-, rfl⟩ := heq
            exact hx
          · have hxundel : ∀ w : List String, x ∈ w → x ∈ w.erase sig := by
              intro w hw
              have hne : x ≠ sig := fun hcontra => hv (hcontra ▸ hx)
              exact (List.mem_erase_of_ne hne).mpr hw
            have hxcons : x ∈ sig :: v := List.mem_cons_of_mem _ hx
            cases hlk : List.lookup sig env with
            | none =>
              simp only [generateZodSchema, htr, if_neg hv, hlk, Option.some.injEq,
                Prod.mk.injEq] at heq
              obtain ⟨-, rfl⟩ := heq
              rw [List.erase_cons_head]
              exact hx
            | some adef =>
              cases adef with
              | recordAlias ka va =>
                cases ka with
                | none =>
                  simp only [generateZodSchema, htr, if_neg hv, hlk, Option.some.injEq,
                    Prod.mk.injEq] at heq
                  obtain ⟨-, rfl⟩ := heq
                  rw [List.erase_cons_head]
                  exact hx
                | some kt =>
                  cases va with
                  | none =>
                    simp only [generateZodSchema, htr, if_neg hv, hlk, Option.some.injEq,
                      Prod.mk.injEq] at heq
                    obtain ⟨-, rfl⟩ := heq
                    rw [List.erase_cons_head]
                    exact hx
                  | some vt =>
                    cases hr1 : generateZodSchema env opts f kt (d + 1) (sig :: v) none with
                    | none =>
                      simp only [generateZodSchema, htr, if_neg hv, hlk, hr1] at heq
                      exact Option.noConfusion heq
                    | some r1 =>
                      obtain ⟨ks, v1⟩ := r1
                      cases hr2 : generateZodSchema env opts f vt (d + 1) v1 none with
                      | none =>
                        simp only [generateZodSchema, htr, if_neg hv, hlk, hr1, hr2] at heq
                        exact Option.noConfusion heq
                      | some r2 =>
                        obtain ⟨vs, v2⟩ := r2
                        simp only [generateZodSchema, htr, if_neg hv, hlk, hr1, hr2,
                          Option.some.injEq, Prod.mk.injEq] at heq
                        obtain ⟨-, rfl⟩ := heq
                        exact ih1 vt (d + 1) v1 none vs _ hr2 x
                          (ih1 kt (d + 1) (sig :: v) none ks v1 hr1 x hxcons)
              | objType ps =>
                by_cases hemp : ps.isEmpty = true
                · simp only [generateZodSchema, htr, if_neg hv, hlk, if_pos hemp,
                    Option.some.injEq, Prod.mk.injEq] at heq
                  obtain ⟨-, rfl⟩ := heq
                  rw [List.erase_cons_head]
                  exact hx
                · cases hpr : generateProps env opts f
                      (ps.filter fun p => !isSyntheticName p.name) d (sig :: v) with
                  | none =>
                    simp only [generateZodSchema, htr, if_neg hv, hlk, if_neg hemp,
                      hpr] at heq
                    exact Option.noConfusion heq
                  | some r =>
                    obtain ⟨lines, v2⟩ := r
                    simp only [generateZodSchema, htr, if_neg hv, hlk, if_neg hemp, hpr,
                      Option.some.injEq, Prod.mk.injEq] at heq
                    obtain ⟨-, rfl⟩ := heq
                    exact hxundel v2
                      (ih3 (ps.filter fun p => !isSyntheticName p.name) d (sig :: v)
                        lines v2 hpr x hxcons)
    · intro ms d v ss v' heq x hx
      induction ms generalizing v ss with
      | nil =>
        simp only [generateMembers, Option.some.injEq, Prod.mk.injEq] at heq
        obtain ⟨-, rfl⟩ := heq
        exact hx
      | cons t ts ihts =>
        cases hr1 : generateZodSchema env opts f t d v none with
        | none =>
          simp only [generateMembers, hr1] at heq
          exact Option.noConfusion heq
        | some r1 =>
          obtain ⟨s0, v0⟩ := r1
          cases hr2 : generateMembers env opts f ts d v0 with
          | none =>
            simp only [generateMembers, hr1, hr2] at heq
            exact Option.noConfusion heq
          | some r2 =>
            obtain ⟨ss0, v1⟩ := r2
            simp only [generateMembers, hr1, hr2, Option.some.injEq, Prod.mk.injEq] at heq
            obtain ⟨-, rfl⟩ := heq
            exact ih2 ts d v0 ss0 _ hr2 x (ih1 t d v none s0 v0 hr1 x hx)
    · intro ps d v ls v' heq x hx
      induction ps generalizing v ls with
      | nil =>
        simp only [generateProps, Option.some.injEq, Prod.mk.injEq] at heq
        obtain ⟨-, rfl⟩ := heq
        exact hx
      | cons p pp ihpp =>
        cases hr1 : generateZodSchema env opts f p.ty (d + 1) v (some p.name) with
        | none =>
          simp only [generateProps, hr1] at heq
          exact Option.noConfusion heq
        | some r1 =>
          obtain ⟨cs, v0⟩ := r1
          cases hr2 : generateProps env opts f pp d v0 with
          | none =>
            simp only [generateProps, hr1, hr2] at heq
            exact Option.noConfusion heq
          | some r2 =>
            obtain ⟨ls0, v1⟩ := r2
            simp only [generateProps, hr1, hr2, Option.some.injEq, Prod.mk.injEq] at heq
            obtain ⟨-, rfl⟩ := heq
            exact ih3 pp d v0 ls0 _ hr2 x (ih1 p.ty (d + 1) v (some p.name) cs v0 hr1 x hx)

/-- Convenience form of `gen_mono` for single calls. -/
theorem generateZodSchema_mono {env : List (String × AtomDef)} {opts : GenOpts}
    {fuel : Nat} {ty : Ty} {d : Nat} {v : List String} {hn : Option String}
    {s : String} {v' : List String}
    (h : generateZodSchema env opts fuel ty d v hn = some (s, v')) :
    ∀ x ∈ v, x ∈ v' :=
  (gen_mono env opts fuel).1 ty d v hn s v' h

/-! ## Termination: sufficient fuel always exists

`generateZodSchema` can only exceed the structural size of its argument by
unfolding an atom through `env`, and every unfolding moves a fresh signature
into the visited set, so
`unvis env v * (envSize env + 1) + size` strictly decreases into every
recursive call.  Hence any fuel above that measure suffices: the source
function terminates on every input, cyclic type graphs included. -/

/-- Fuel bound for one call of `generateZodSchema`. -/
def visitMeasure (env : List (String × AtomDef)) (v : List String) (t : Ty) : Nat :=
  unvis env v * (envSize env + 1) + Ty.size t

theorem step_lt {a b C n f : Nat} (hab : a + 1 ≤ b) (hn : n < C) (hb : b * C ≤ f) :
    a * C + n < f := by
  have h1 : (a + 1) * C = a * C + C := by ring
  have h2 : (a + 1) * C ≤ b * C := Nat.mul_le_mul_right C hab
  omega

theorem gen_total (env : List (String × AtomDef)) (opts : GenOpts) :
    ∀ fuel : Nat,
      (∀ ty d v hn, unvis env v * (envSize env + 1) + Ty.size ty < fuel →
        (generateZodSchema env opts fuel ty d v hn).isSome = true)
      ∧ (∀ ms d v, unvis env v * (envSize env + 1) + Ty.sizeList ms < fuel →
        (generateMembers env opts fuel ms d v).isSome = true)
      ∧ (∀ ps d v, unvis env v * (envSize env + 1) + propsSize ps < fuel →
        (generateProps env opts fuel ps d v).isSome = true) := by
  intro fuel
  induction fuel with
  | zero =>
    refine ⟨?_, ?_, ?_⟩
    · intro _ _ _ _ hlt; omega
    · intro _ _ _ hlt; omega
    · intro _ _ _ hlt; omega
  | succ f ih =>
    obtain ⟨ih1, ih2, ih3⟩ := ih
    refine ⟨?_, ?_, ?_⟩
    · intro ty d v hn hlt
      cases ty with
      | arr e =>
        have hsub : unvis env v * (envSize env + 1) + Ty.size e < f := by
          simp only [Ty.size] at hlt; omega
        have hs := ih1 e d v none hsub
        cases hrec : generateZodSchema env opts f e d v none with
        | none => rw [hrec] at hs; simp at hs
        | some r =>
          obtain ⟨s0, v0⟩ := r
          simp [generateZodSchema, hrec]
      | lit t => simp [generateZodSchema]
      | enumLit n => simp [generateZodSchema]
      | union ms =>
        cases htr : textRules opts (Ty.getText (.union ms)) hn with
        | some r => simp [generateZodSchema, htr]
        | none =>
          have hsub : unvis env v * (envSize env + 1) + Ty.sizeList ms < f := by
            simp only [Ty.size] at hlt; omega
          have hs := ih2 ms d v hsub
          cases hrec : generateMembers env opts f ms d v with
          | none => rw [hrec] at hs; simp at hs
          | some r =>
            obtain ⟨ss, v0⟩ := r
            simp [generateZodSchema, htr, hrec]
      | atom sig =>
        cases htr : textRules opts sig hn with
        | some r => simp [generateZodSchema, htr]
        | none =>
          by_cases hv : sig ∈ v
          · simp [generateZodSchema, htr, hv]
          · have hb : unvis env v * (envSize env + 1) ≤ f := by
              simp only [Ty.size] at hlt; omega
            cases hlk : List.lookup sig env with
            | none => simp [generateZodSchema, htr, hv, hlk]
            | some adef =>
              cases adef with
              | recordAlias ka va =>
                cases ka with
                | none => simp [generateZodSchema, htr, hv, hlk]
                | some kt =>
                  cases va with
                  | none => simp [generateZodSchema, htr, hv, hlk]
                  | some vt =>
                    have hC := tySize_le_envSize env sig _ hlk
                    simp only [AtomDef.tySize] at hC
                    have hunv := unvis_lookup_lt env sig _ hv hlk
                    have h1 : unvis env (sig :: v) * (envSize env + 1) + Ty.size kt < f :=
                      step_lt hunv (by omega) hb
                    have hk1 := ih1 kt (d + 1) (sig :: v) none h1
                    cases hr1 : generateZodSchema env opts f kt (d + 1) (sig :: v) none with
                    | none => rw [hr1] at hk1; simp at hk1
                    | some r1 =>
                      obtain ⟨ks, v1⟩ := r1
                      have ha1 : unvis env v1 ≤ unvis env (sig :: v) :=
                        unvis_mono env (generateZodSchema_mono hr1)
                      have h2 : unvis env v1 * (envSize env + 1) + Ty.size vt < f :=
                        step_lt (by omega) (by omega) hb
                      have hk2 := ih1 vt (d + 1) v1 none h2
                      cases hr2 : generateZodSchema env opts f vt (d + 1) v1 none with
                      | none => rw [hr2] at hk2; simp at hk2
                      | some r2 =>
                        obtain ⟨vs, v2⟩ := r2
                        simp [generateZodSchema, htr, hv, hlk, hr1, hr2]
              | objType ps =>
                by_cases hemp : ps.isEmpty = true
                · simp [generateZodSchema, htr, hv, hlk, hemp]
                · have hC := tySize_le_envSize env sig _ hlk
                  simp only [AtomDef.tySize] at hC
                  have hfil := propsSize_filter_le (fun p => !isSyntheticName p.name) ps
                  have hunv := unvis_lookup_lt env sig _ hv hlk
                  have h1 : unvis env (sig :: v) * (envSize env + 1) +
                      propsSize (ps.filter fun p => !isSyntheticName p.name) < f :=
                    step_lt hunv (by omega) hb
                  have hp := ih3 _ d (sig :: v) h1
                  cases hpr : generateProps env opts f
                      (ps.filter fun p => !isSyntheticName p.name) d (sig :: v) with
                  | none => rw [hpr] at hp; simp at hp
                  | some r =>
                    obtain ⟨lines, v2⟩ := r
                    simp [generateZodSchema, htr, hv, hlk, hemp, hpr]
    · intro ms d v hlt
      cases ms with
      | nil => simp [generateMembers]
      | cons t ts =>
        have hs1 := ih1 t d v none (by simp only [Ty.sizeList] at hlt; omega)
        cases hr1 : generateZodSchema env opts f t d v none with
        | none => rw [hr1] at hs1; simp at hs1
        | some r1 =>
          obtain ⟨s0, v0⟩ := r1
          have hszt := Ty.size_pos t
          have hm : unvis env v0 * (envSize env + 1) ≤ unvis env v * (envSize env + 1) :=
            Nat.mul_le_mul_right _ (unvis_mono env (generateZodSchema_mono hr1))
          have hs2 := ih2 ts d v0 (by simp only [Ty.sizeList] at hlt; omega)
          cases hr2 : generateMembers env opts f ts d v0 with
          | none => rw [hr2] at hs2; simp at hs2
          | some r2 =>
            obtain ⟨ss0, v1⟩ := r2
            simp [generateMembers, hr1, hr2]
    · intro ps d v hlt
      cases ps with
      | nil => simp [generateProps]
      | cons p pp =>
        have hs1 := ih1 p.ty (d + 1) v (some p.name)
          (by simp only [propsSize] at hlt; omega)
        cases hr1 : generateZodSchema env opts f p.ty (d + 1) v (some p.name) with
        | none => rw [hr1] at hs1; simp at hs1
        | some r1 =>
          obtain ⟨cs, v0⟩ := r1
          have hszt := Ty.size_pos p.ty
          have hm : unvis env v0 * (envSize env + 1) ≤ unvis env v * (envSize env + 1) :=
            Nat.mul_le_mul_right _ (unvis_mono env (generateZodSchema_mono hr1))
          have hs2 := ih3 pp d v0 (by simp only [propsSize] at hlt; omega)
          cases hr2 : generateProps env opts f pp d v0 with
          | none => rw [hr2] at hs2; simp at hs2
          | some r2 =>
            obtain ⟨ls0, v1⟩ := r2
            simp [generateProps, hr1, hr2]

/-- Sufficient fuel: `generateZodSchema` succeeds whenever the fuel exceeds
`visitMeasure`. -/
theorem generateZodSchema_total (env : List (String × AtomDef)) (opts : GenOpts)
    (fuel : Nat) (ty : Ty) (d : Nat) (v : List String) (hn : Option String)
    (hlt : visitMeasure env v ty < fuel) :
    (generateZodSchema env opts fuel ty d v hn).isSome = true :=
  (gen_total env opts fuel).1 ty d v hn hlt

/-! ## Substring facts for the error-message claims -/

theorem listPre_self_append (needle post : List Char) :
    listPre needle (needle ++ post) = true := by
  induction needle with
  | nil => simp [listPre]
  | cons c cs ih => simp [listPre, ih]

theorem listSub_of_listPre (needle hay : List Char) (h : listPre needle hay = true) :
    listSub needle hay = true := by
  cases hay with
  | nil => simpa [listSub] using h
  | cons c t => simp [listSub, h]

theorem listSub_mid (needle pre post : List Char) :
    listSub needle (pre ++ (needle ++ post)) = true := by
  induction pre with
  | nil => exact listSub_of_listPre _ _ (listPre_self_append needle post)
  | cons p ps ih => simp [listSub, ih]

theorem strIncludes_mid (a b c : String) : strIncludes (a ++ b ++ c) b = true := by
  unfold strIncludes
  have hdata : (a ++ b ++ c).data = a.data ++ (b.data ++ c.data) := by
    simp [String.data_append]
  rw [hdata]
  exact listSub_mid b.data a.data c.data

theorem strIncludes_suffix (a b : String) : strIncludes (a ++ b) b = true := by
  unfold strIncludes
  have hdata : (a ++ b).data = a.data ++ (b.data ++ []) := by
    simp [String.data_append]
  rw [hdata]
  exact listSub_mid b.data a.data []

/-! ## Claims -/

/-- C1 (counterexample): an optional property whose type matches a
`customTypeGenerators` rule does NOT receive the replacement verbatim: the
walker's caller still wraps the replacement in `z.optional(...)`, so the
compiled property node differs from the replacement. -/
theorem C1_counterexample :
    generateZodSchema [("P", .objType [⟨"a", true, .atom "CustomId"⟩])]
        { customTypeGenerators := some [(.strPat "CustomId", "z.uuid()")] }
        10 (.atom "P") 0 [] none =
      some ("z.object(\x7b\n  \"a\": z.optional(z.uuid()),\n\x7d)", [])
    ∧ "z.optional(z.uuid())" ≠ "z.uuid()" := by
  exact ⟨rfl, by decide⟩

/-- C1 (amended): a matched override replacement short-circuits translation of
the property's type node, but property optionality wrapping still applies on
top of it: an optional property whose type signature matches a rule compiles
to the line `"name": z.optional(replacement),`, a required one to
`"name": replacement,`. -/
theorem C1_override_optional_wrap (env : List (String × AtomDef)) (opts : GenOpts)
    (f d : Nat) (v : List String) (p : PropDesc) (ps : List PropDesc)
    (sig r : String) (ls : List String) (v1 : List String)
    (hty : p.ty = .atom sig)
    (hov : findOverride (opts.customTypeGenerators.getD []) sig = some r)
    (hrest : generateProps env opts (f + 1) ps d v = some (ls, v1)) :
    generateProps env opts (f + 2) (p :: ps) d v =
      some ((indentStr d ++ "  " ++ jsonStr p.name ++ ": " ++
        (if p.optional then "z.optional(" ++ r ++ ")" else r) ++ ",") :: ls, v1) := by
  have hchild : generateZodSchema env opts (f + 1) p.ty (d + 1) v (some p.name) =
      some (r, v) := by
    rw [hty]
    have htr : textRules opts sig (some p.name) = some r := by
      unfold textRules
      rw [hov]
    simp [generateZodSchema, htr]
  simp [generateProps, hchild, hrest]

theorem C1_override_optional_wrap_witness :
    generateProps [] { customTypeGenerators := some [(.strPat "CustomId", "z.uuid()")] }
      3 [⟨"a", true, .atom "CustomId"⟩] 0 [] =
    some (["  \"a\": z.optional(z.uuid()),"], []) := by
  have h := C1_override_optional_wrap []
    { customTypeGenerators := some [(.strPat "CustomId", "z.uuid()")] }
    1 0 [] ⟨"a", true, .atom "CustomId"⟩ [] "CustomId" "z.uuid()" [] []
    rfl rfl rfl
  simpa using h

/-- C2 (counterexample): an override rule whose matcher matches an array
node's textual signature (`"string[]"`) does not short-circuit dispatch for
that node — the array branch runs before the override check and compiles the
element normally. -/
theorem C2_counterexample :
    Matcher.matches (.strPat "string[]") (Ty.getText (.arr (.atom "string"))) = true
    ∧ generateZodSchema []
        { customTypeGenerators := some [(.strPat "string[]", "z.uuid()")] }
        5 (.arr (.atom "string")) 0 [] none = some ("z.array(z.string())", [])
    ∧ "z.array(z.string())" ≠ "z.uuid()" := by
  refine ⟨by decide, rfl, by decide⟩

/-- C2 (amended): override rules are consulted first, and short-circuit the
whole dispatch, for primitive/object/Record (`atom`) nodes and for union
nodes; but array, literal and enum-literal nodes are dispatched before the
override check ever runs, so a matching rule has no effect on them: an array
node still compiles its element and wraps it, and literal/enum-literal nodes
still compile to their literal/enum nodes. -/
theorem C2_override_dispatch (env : List (String × AtomDef)) (opts : GenOpts)
    (f d : Nat) (v : List String) (hn : Option String) :
    (∀ sig r, findOverride (opts.customTypeGenerators.getD []) sig = some r →
      generateZodSchema env opts (f + 1) (.atom sig) d v hn = some (r, v))
    ∧ (∀ ms r, findOverride (opts.customTypeGenerators.getD [])
          (Ty.getText (.union ms)) = some r →
      generateZodSchema env opts (f + 1) (.union ms) d v hn = some (r, v))
    ∧ (∀ e r es v', findOverride (opts.customTypeGenerators.getD [])
          (Ty.getText (.arr e)) = some r →
        generateZodSchema env opts f e d v none = some (es, v') →
      generateZodSchema env opts (f + 1) (.arr e) d v hn =
        some ("z.array(" ++ es ++ ")", v'))
    ∧ (∀ t r, findOverride (opts.customTypeGenerators.getD [])
          (Ty.getText (.lit t)) = some r →
      generateZodSchema env opts (f + 1) (.lit t) d v hn =
        some ("z.literal(" ++ t ++ ")", v))
    ∧ (∀ n r, findOverride (opts.customTypeGenerators.getD [])
          (Ty.getText (.enumLit n)) = some r →
      generateZodSchema env opts (f + 1) (.enumLit n) d v hn =
        some ("z.enum(" ++ n ++ ")", v)) := by
  refine ⟨?_, ?_, ?_, ?_, ?_⟩
  · intro sig r hov
    have htr : textRules opts sig hn = some r := by
      unfold textRules
      rw [hov]
    simp [generateZodSchema, htr]
  · intro ms r hov
    have htr : textRules opts (Ty.getText (.union ms)) hn = some r := by
      unfold textRules
      rw [hov]
    simp [generateZodSchema, htr]
  · intro e r es v' _ hrec
    simp [generateZodSchema, hrec]
  · intro t r _
    simp [generateZodSchema]
  · intro n r _
    simp [generateZodSchema]

theorem C2_override_dispatch_witness :
    generateZodSchema [] { customTypeGenerators := some [(.strPat "Money", "z.int()")] }
      4 (.atom "Money") 0 [] none = some ("z.int()", [])
    ∧ generateZodSchema [] { customTypeGenerators := some [(.strPat "string[]", "z.uuid()")] }
      5 (.arr (.atom "string")) 0 [] none = some ("z.array(z.string())", []) := by
  refine ⟨(C2_override_dispatch [] _ 3 0 [] none).1 "Money" "z.int()" rfl, ?_⟩
  exact (C2_override_dispatch [] _ 4 0 [] none).2.2.1 (.atom "string") "z.uuid()"
    "z.string()" [] rfl rfl

/-- C3 (counterexample): on the successful `Record` path the signature added
to the visited set is NOT removed when compilation of the node returns, so
the visited set of a root compilation call is non-empty on exit. -/
theorem C3_counterexample :
    generateZodSchema [("R", .recordAlias (some (.atom "string")) (some (.atom "number")))]
      {} 5 (.atom "R") 0 [] none = some ("z.record(z.string(), z.number())", ["R"])
    ∧ (["R"] : List String) ≠ [] := by
  exact ⟨rfl, by decide⟩

/-- C3 (amended): the cycle guard is pre-order add / post-order remove on the
object return paths and on the degenerate paths (unresolvable atom, empty
object, `Record` with a missing type argument restore the visited set
exactly; the non-empty object path erases the added signature from the final
set), but the successful `Record` path returns without removing the
signature, which therefore stays in the returned set — so the visited set of
a root call is not in general empty again on exit. -/
theorem C3_visited_scoping (env : List (String × AtomDef)) (opts : GenOpts)
    (f d : Nat) (v : List String) (sig : String) (hn : Option String)
    (htr : textRules opts sig hn = none) (hv : sig ∉ v) :
    (List.lookup sig env = none →
      generateZodSchema env opts (f + 1) (.atom sig) d v hn = some ("\x7b\x7d", v))
    ∧ (∀ ps, List.lookup sig env = some (.objType ps) → ps.isEmpty = true →
      generateZodSchema env opts (f + 1) (.atom sig) d v hn = some ("\x7b\x7d", v))
    ∧ (∀ ka va, List.lookup sig env = some (.recordAlias ka va) →
        (ka = none ∨ va = none) →
      generateZodSchema env opts (f + 1) (.atom sig) d v hn = some ("\x7b\x7d", v))
    ∧ (∀ ps lines v2, List.lookup sig env = some (.objType ps) → ps.isEmpty = false →
        generateProps env opts f (ps.filter fun p => !isSyntheticName p.name) d (sig :: v) =
          some (lines, v2) →
      generateZodSchema env opts (f + 1) (.atom sig) d v hn =
        some ("z.object(\x7b\n" ++
          String.intercalate "\n" (lines.filter fun l => !(l == "")) ++
          "\n" ++ indentStr d ++ "\x7d)", v2.erase sig))
    ∧ (∀ kt vt ks vs v1 v2,
        List.lookup sig env = some (.recordAlias (some kt) (some vt)) →
        generateZodSchema env opts f kt (d + 1) (sig :: v) none = some (ks, v1) →
        generateZodSchema env opts f vt (d + 1) v1 none = some (vs, v2) →
      generateZodSchema env opts (f + 1) (.atom sig) d v hn =
        some ("z.record(" ++ ks ++ ", " ++ vs ++ ")", v2) ∧ sig ∈ v2) := by
  refine ⟨?_, ?_, ?_, ?_, ?_⟩
  · intro hlk
    simp [generateZodSchema, htr, hv, hlk]
  · intro ps hlk hemp
    simp [generateZodSchema, htr, hv, hlk, hemp]
  · intro ka va hlk hdeg
    rcases hdeg with h | h
    · subst h
      simp [generateZodSchema, htr, hv, hlk]
    · subst h
      cases ka with
      | none => simp [generateZodSchema, htr, hv, hlk]
      | some kt => simp [generateZodSchema, htr, hv, hlk]
  · intro ps lines v2 hlk hemp hpr
    simp [generateZodSchema, htr, hv, hlk, hemp, hpr]
  · intro kt vt ks vs v1 v2 hlk hr1 hr2
    constructor
    · simp [generateZodSchema, htr, hv, hlk, hr1, hr2]
    · have h1 : sig ∈ v1 := generateZodSchema_mono hr1 sig (List.mem_cons_self sig v)
      exact generateZodSchema_mono hr2 sig h1

theorem C3_visited_scoping_witness :
    (generateZodSchema [("R", .recordAlias (some (.atom "string")) (some (.atom "number")))]
      {} 5 (.atom "R") 0 [] none = some ("z.record(z.string(), z.number())", ["R"])
      ∧ "R" ∈ (["R"] : List String))
    ∧ generateZodSchema [("E", .objType [])] {} 5 (.atom "E") 0 [] none = some ("\x7b\x7d", []) := by
  constructor
  · exact (C3_visited_scoping
      [("R", .recordAlias (some (.atom "string")) (some (.atom "number")))]
      {} 4 0 [] "R" none rfl (by decide)).2.2.2.2
      (.atom "string") (.atom "number") "z.string()" "z.number()" ["R"] ["R"] rfl rfl rfl
  · exact ((C3_visited_scoping [("E", .objType [])] {} 4 0 [] "E" none rfl
      (by decide)).2.1 [] rfl rfl)

/-- C4: compilation terminates for every type graph — any fuel above
`visitMeasure` suffices, cyclic (self-referential) graphs included — and a
node whose signature is already on the active recursion path (the
re-encounter point, which by construction reached the cycle guard, i.e. no
text rule fired for it) compiles to the empty-object fallback `"{}"`. -/
theorem C4_cycle_termination (env : List (String × AtomDef)) (opts : GenOpts) :
    (∀ fuel ty d v hn, visitMeasure env v ty < fuel →
      (generateZodSchema env opts fuel ty d v hn).isSome = true)
    ∧ (∀ f sig d v hn, sig ∈ v → textRules opts sig hn = none →
      generateZodSchema env opts (f + 1) (.atom sig) d v hn = some ("\x7b\x7d", v)) := by
  constructor
  · intro fuel ty d v hn hlt
    exact generateZodSchema_total env opts fuel ty d v hn hlt
  · intro f sig d v hn hv htr
    simp [generateZodSchema, htr, hv]

theorem C4_cycle_termination_witness :
    (generateZodSchema
        [("User", .objType [⟨"id", false, .atom "string"⟩, ⟨"friend", false, .atom "User"⟩])]
        {} 20 (.atom "User") 0 [] none).isSome = true
    ∧ generateZodSchema
        [("User", .objType [⟨"id", false, .atom "string"⟩, ⟨"friend", false, .atom "User"⟩])]
        {} 8 (.atom "User") 0 ["User"] (some "friend") = some ("\x7b\x7d", ["User"]) := by
  constructor
  · exact (C4_cycle_termination _ {}).1 20 (.atom "User") 0 [] none (by decide)
  · exact (C4_cycle_termination _ {}).2 7 "User" 0 ["User"] (some "friend") (by decide) rfl

/-- C5: an unresolvable interface name fails fatally — for every fuel, before
any tree-walking — with the exact message interpolating the missing name and
the basename of the searched file (so the message contains both as
substrings); a resolvable name, given sufficient fuel, always produces a
complete artifact (`Except.ok`). -/
theorem C5_resolution (sf : SourceFileModel) (name : String) (opts : GenOpts) :
    (List.lookup name sf.interfaces = none →
      ∀ fuel,
        generateZodSchemaFunction sf name opts fuel =
          .error ("Interface '" ++ name ++ "' not found in " ++ basename sf.filePath)
        ∧ strIncludes ("Interface '" ++ name ++ "' not found in " ++ basename sf.filePath)
            name = true
        ∧ strIncludes ("Interface '" ++ name ++ "' not found in " ++ basename sf.filePath)
            (basename sf.filePath) = true)
    ∧ (∀ ty, List.lookup name sf.interfaces = some ty →
      ∀ fuel, visitMeasure sf.env [] ty < fuel →
        ∃ out, generateZodSchemaFunction sf name opts fuel = .ok out) := by
  constructor
  · intro hnone fuel
    refine ⟨by simp [generateZodSchemaFunction, hnone], ?_, ?_⟩
    · rw [String.append_assoc]
      exact strIncludes_mid "Interface '" name ("' not found in " ++ basename sf.filePath)
    · exact strIncludes_suffix ("Interface '" ++ name ++ "' not found in ")
        (basename sf.filePath)
  · intro ty hsome fuel hlt
    have hs := generateZodSchema_total sf.env opts fuel ty 0 [] none hlt
    cases hrec : generateZodSchema sf.env opts fuel ty 0 [] none with
    | none => rw [hrec] at hs; simp at hs
    | some r =>
      obtain ⟨s, v⟩ := r
      refine ⟨"\n      function create" ++ name ++ "ZodSchema() \x7b\n        return " ++
        s ++ ";\n      \x7d\n\n      return create" ++ name ++ "ZodSchema();\n    ", ?_⟩
      simp [generateZodSchemaFunction, hsome, hrec]

theorem C5_resolution_witness :
    (generateZodSchemaFunction ⟨"/home/app/models.ts", [("User", .atom "User")],
        [("User", .objType [⟨"id", false, .atom "string"⟩])]⟩ "Missing" {} 0 =
      .error "Interface 'Missing' not found in models.ts")
    ∧ ∃ out, generateZodSchemaFunction ⟨"/home/app/models.ts", [("User", .atom "User")],
        [("User", .objType [⟨"id", false, .atom "string"⟩])]⟩ "User" {} 50 = .ok out := by
  constructor
  · exact ((C5_resolution ⟨"/home/app/models.ts", [("User", .atom "User")],
      [("User", .objType [⟨"id", false, .atom "string"⟩])]⟩ "Missing" {}).1 rfl 0).1
  · exact (C5_resolution ⟨"/home/app/models.ts", [("User", .atom "User")],
      [("User", .objType [⟨"id", false, .atom "string"⟩])]⟩ "User" {}).2
      (.atom "User") rfl 50 (by decide)

/-- C6: a string-typed property named `"link"` compiles to the generic string
node, not the url-specialized node — the smart-detection chain only tests the
substrings `"email"` and `"url"`, never `"link"`, contradicting the README
("Properties containing \"url\" or \"link\" → `z.url()`"). -/
theorem C6_link_not_url :
    generateZodSchema [] {} 3 (.atom "string") 0 [] (some "link") = some ("z.string()", [])
    ∧ "z.string()" ≠ "z.url()" := by
  exact ⟨rfl, by decide⟩

/-- C7: when no override rule matches the text `"string"`, a string-typed
property whose name is listed in `excludedSmartDetections` compiles to the
generic string node, while smart detection still applies to names not listed
(an unlisted name containing `"email"` yields the email node). -/
theorem C7_smart_exclusion (env : List (String × AtomDef)) (opts : GenOpts)
    (f d : Nat) (v : List String) (name : String)
    (hov : findOverride (opts.customTypeGenerators.getD []) "string" = none) :
    (name ∈ opts.excludedSmartDetections.getD [] →
      generateZodSchema env opts (f + 1) (.atom "string") d v (some name) =
        some ("z.string()", v))
    ∧ (name ∉ opts.excludedSmartDetections.getD [] → ¬ name = "" →
        strIncludes (strLower name) "email" = true →
      generateZodSchema env opts (f + 1) (.atom "string") d v (some name) =
        some ("z.email()", v)) := by
  have htr : textRules opts "string" (some name) =
      some (smartString opts (some name)) := by
    unfold textRules
    rw [hov]
    simp
  constructor
  · intro hmem
    have hss : smartString opts (some name) = "z.string()" := by
      unfold smartString
      simp [hmem]
    simp [generateZodSchema, htr, hss]
  · intro hmem hne hmail
    have hss : smartString opts (some name) = "z.email()" := by
      unfold smartString
      have hbe : (name == "") = false := by
        simp [hne]
      simp [hmem, hbe, hmail]
    simp [generateZodSchema, htr, hss]

theorem C7_smart_exclusion_witness :
    generateZodSchema [] { excludedSmartDetections := some ["email"] }
      3 (.atom "string") 0 [] (some "email") = some ("z.string()", [])
    ∧ generateZodSchema [] { excludedSmartDetections := some ["email"] }
      3 (.atom "string") 0 [] (some "userEmail") = some ("z.email()", []) := by
  constructor
  · exact (C7_smart_exclusion [] { excludedSmartDetections := some ["email"] }
      2 0 [] "email" rfl).1 (by decide)
  · exact (C7_smart_exclusion [] { excludedSmartDetections := some ["email"] }
      2 0 [] "userEmail" rfl).2 (by decide) (by decide) (by decide)

/-- C8: structurally odd descriptors degrade to the empty-object fallback
instead of raising: a `Record` alias with a missing key or value argument and
an object whose resolved type has zero own properties both compile to `"{}"`
(restoring the visited set), and — concretely — sibling properties of such a
node still compile normally. -/
theorem C8_structural_degradation (env : List (String × AtomDef)) (opts : GenOpts)
    (f d : Nat) (v : List String) (sig : String) (hn : Option String)
    (htr : textRules opts sig hn = none) (hv : sig ∉ v) :
    (∀ ka va, List.lookup sig env = some (.recordAlias ka va) →
        (ka = none ∨ va = none) →
      generateZodSchema env opts (f + 1) (.atom sig) d v hn = some ("\x7b\x7d", v))
    ∧ (List.lookup sig env = some (.objType []) →
      generateZodSchema env opts (f + 1) (.atom sig) d v hn = some ("\x7b\x7d", v))
    ∧ generateZodSchema
        [("Parent", .objType [⟨"cfg", false, .atom "Cfg"⟩, ⟨"name", false, .atom "string"⟩]),
         ("Cfg", .recordAlias none none)] {} 10 (.atom "Parent") 0 [] none =
      some ("z.object(\x7b\n  \"cfg\": \x7b\x7d,\n  \"name\": z.string(),\n\x7d)", []) := by
  refine ⟨?_, ?_, rfl⟩
  · intro ka va hlk hdeg
    rcases hdeg with h | h
    · subst h
      simp [generateZodSchema, htr, hv, hlk]
    · subst h
      cases ka with
      | none => simp [generateZodSchema, htr, hv, hlk]
      | some kt => simp [generateZodSchema, htr, hv, hlk]
  · intro hlk
    simp [generateZodSchema, htr, hv, hlk]

theorem C8_structural_degradation_witness :
    generateZodSchema [("M", .recordAlias (some (.atom "string")) none)]
      {} 4 (.atom "M") 0 [] none = some ("\x7b\x7d", [])
    ∧ generateZodSchema [("E", .objType [])] {} 4 (.atom "E") 0 [] none =
      some ("\x7b\x7d", []) := by
  constructor
  · exact (C8_structural_degradation [("M", .recordAlias (some (.atom "string")) none)]
      {} 3 0 [] "M" none rfl (by decide)).1 (some (.atom "string")) none rfl (Or.inr rfl)
  · exact (C8_structural_degradation [("E", .objType [])]
      {} 3 0 [] "E" none rfl (by decide)).2.1 rfl

/-- C9: in the validator backend an optional object property is always
wrapped in `z.optional(...)` around its compiled child node, and a
non-optional property is never wrapped; concretely, an object with an
optional string property and a required number property compiles with exactly
the optional one wrapped. -/
theorem C9_optional_wrapping (env : List (String × AtomDef)) (opts : GenOpts)
    (f d : Nat) (v : List String) (p : PropDesc) (ps : List PropDesc)
    (cs : String) (v1 : List String) (ls : List String) (v2 : List String)
    (hchild : generateZodSchema env opts f p.ty (d + 1) v (some p.name) = some (cs, v1))
    (hrest : generateProps env opts f ps d v1 = some (ls, v2)) :
    (p.optional = true →
      generateProps env opts (f + 1) (p :: ps) d v =
        some ((indentStr d ++ "  " ++ jsonStr p.name ++ ": " ++
          ("z.optional(" ++ cs ++ ")") ++ ",") :: ls, v2))
    ∧ (p.optional = false →
      generateProps env opts (f + 1) (p :: ps) d v =
        some ((indentStr d ++ "  " ++ jsonStr p.name ++ ": " ++ cs ++ ",") :: ls, v2))
    ∧ generateZodSchema
        [("U", .objType [⟨"bio", true, .atom "string"⟩, ⟨"age", false, .atom "number"⟩])]
        {} 10 (.atom "U") 0 [] none =
      some ("z.object(\x7b\n  \"bio\": z.optional(z.string()),\n  \"age\": z.number(),\n\x7d)", []) := by
  refine ⟨?_, ?_, rfl⟩
  · intro hopt
    simp [generateProps, hchild, hrest, hopt]
  · intro hopt
    simp [generateProps, hchild, hrest, hopt]

theorem C9_optional_wrapping_witness :
    generateProps [] {} 3 [⟨"bio", true, .atom "string"⟩] 0 [] =
      some (["  \"bio\": z.optional(z.string()),"], [])
    ∧ generateProps [] {} 3 [⟨"age", false, .atom "number"⟩] 0 [] =
      some (["  \"age\": z.number(),"], []) := by
  constructor
  · have h := (C9_optional_wrapping [] {} 2 0 [] ⟨"bio", true, .atom "string"⟩ []
      "z.string()" [] [] [] rfl rfl).1 rfl
    simpa using h
  · have h := (C9_optional_wrapping [] {} 2 0 [] ⟨"age", false, .atom "number"⟩ []
      "z.number()" [] [] [] rfl rfl).2.1 rfl
    simpa using h

/-- C10: union members are compiled without the property-name hint — for a
union node (whose text is not literally `"string"`, which cannot happen for a
real union) the result does not depend on the hint at all — and concretely a
union containing the string primitive compiles its string member to the
generic string node even under an `"email"` hint. -/
theorem C10_union_drops_hint (env : List (String × AtomDef)) (opts : GenOpts)
    (fuel d : Nat) (v : List String) (ms : List Ty)
    (hne : ¬ Ty.getText (.union ms) = "string") :
    (∀ h1 h2 : Option String,
      generateZodSchema env opts fuel (.union ms) d v h1 =
        generateZodSchema env opts fuel (.union ms) d v h2)
    ∧ generateZodSchema [] {} 6 (.union [.atom "string", .atom "number"]) 0 []
        (some "email") = some ("z.union([z.string(), z.number()])", []) := by
  refine ⟨?_, rfl⟩
  intro h1 h2
  have htr : ∀ hh : Option String, textRules opts (Ty.getText (.union ms)) hh =
      textRules opts (Ty.getText (.union ms)) none := by
    intro hh
    unfold textRules
    cases findOverride (opts.customTypeGenerators.getD []) (Ty.getText (.union ms)) with
    | some r => simp
    | none =>
      have hbe : (Ty.getText (.union ms) == "string") = false := by
        simp [hne]
      simp [hbe]
  cases fuel with
  | zero => simp [generateZodSchema]
  | succ f =>
    simp only [generateZodSchema]
    rw [htr h1, htr h2]

theorem C10_union_drops_hint_witness :
    generateZodSchema [] {} 6 (.union [.atom "string", .atom "number"]) 0 []
        (some "email") =
      generateZodSchema [] {} 6 (.union [.atom "string", .atom "number"]) 0 [] none
    ∧ generateZodSchema [] {} 6 (.union [.atom "string", .atom "number"]) 0 []
        (some "email") = some ("z.union([z.string(), z.number()])", []) := by
  constructor
  · exact (C10_union_drops_hint [] {} 6 0 [] [.atom "string", .atom "number"]
      (by decide)).1 (some "email") none
  · exact (C10_union_drops_hint [] {} 6 0 [] [.atom "string", .atom "number"]
      (by decide)).2

end InterfaceToZod
